import Mathlib

/-!
Shallow embedding of `src/ceda_status_slack_bot/app.py` (ceda-status-slack-bot).

The program is a Slack bot holding process-global state:
  `global_statuses`   : the canonical list of service-status records (or None),
  `original_statuses` : a deep copy taken at the last successful load (or None),
  `has_unsaved_changes` : a boolean flag,
  `working_copies`    : a dict from int keys (record index, or -1 for a new
                        record) to working copies of records.

Records are JSON objects with string fields `status`, `affectedServices`,
`summary`, `date` and an `updates` array of objects with `date`, `details`
and an optional `url` key.  We embed them as fixed-field structures; an
absent `url` key is `none`, a present (possibly empty) one is `some s`.

Form values arriving from Slack are modelled as Lean `String`s (ASCII); the
Python `\d` / `\w` character classes are modelled by their ASCII subsets,
which agree with Python on all ASCII inputs.
-/

namespace CedaStatusBot

/-- One entry of a record's `updates` array.  `url = none` models a dict with
no `"url"` key; `url = some s` models a dict carrying `"url": s`. -/
structure UpdateEntry where
  date : String
  details : String
  url : Option String
deriving DecidableEq, Repr

/-- One service-status record, the fixed shape produced by the submission
handlers (`status`, `affectedServices`, `summary`, `date`, `updates`). -/
structure ServiceRecord where
  status : String
  affectedServices : String
  summary : String
  date : String
  updates : List UpdateEntry
deriving DecidableEq, Repr

/-- JSON values, the codomain of `json.dumps`-level comparison.  Objects keep
their key list explicit so that `sort_keys=True` is modelled by listing keys
in sorted order. -/
inductive Json where
  | str : String → Json
  | arr : List Json → Json
  | obj : List (String × Json) → Json
deriving Repr

/-- Structural equality of JSON values; `json.dumps(x, sort_keys=True) ==
json.dumps(y, sort_keys=True)` holds exactly when the key-sorted trees are
equal, since serialisation is injective on trees. -/
def Json.beq : Json → Json → Bool
  | .str a, .str b => a == b
  | .arr [], .arr [] => true
  | .arr (x :: xs), .arr (y :: ys) => Json.beq x y && Json.beq (.arr xs) (.arr ys)
  | .obj [], .obj [] => true
  | .obj ((k, v) :: fs), .obj ((l, w) :: gs) =>
      k == l && Json.beq v w && Json.beq (.obj fs) (.obj gs)
  | _, _ => false

/-- Serialisation of an update dict with keys in sorted order
(`date` < `details` < `url`); the `url` key is present only when the dict
carries it. -/
def updateToJson (u : UpdateEntry) : Json :=
  Json.obj
    ([("date", Json.str u.date), ("details", Json.str u.details)] ++
      (match u.url with
       | none => []
       | some s => [("url", Json.str s)]))

/-- Serialisation of a record dict with keys in sorted order
(`affectedServices` < `date` < `status` < `summary` < `updates`). -/
def recordToJson (r : ServiceRecord) : Json :=
  Json.obj
    [("affectedServices", Json.str r.affectedServices),
     ("date", Json.str r.date),
     ("status", Json.str r.status),
     ("summary", Json.str r.summary),
     ("updates", Json.arr (r.updates.map updateToJson))]

/-- The key-sorted JSON tree of the whole status list. -/
def statusesJson (l : List ServiceRecord) : Json :=
  Json.arr (l.map recordToJson)

/-! ## Validators (`validate_date_format`, `validate_url`) -/

/-- Day count of a month as `datetime.datetime.strptime` accepts it,
including leap-year handling. -/
def daysInMonth (year month : Nat) : Nat :=
  if month = 1 ∨ month = 3 ∨ month = 5 ∨ month = 7 ∨ month = 8 ∨ month = 10 ∨ month = 12 then 31
  else if month = 4 ∨ month = 6 ∨ month = 9 ∨ month = 11 then 30
  else if month = 2 then
    if (year % 4 = 0 ∧ year % 100 ≠ 0) ∨ year % 400 = 0 then 29 else 28
  else 0

/-- Numeric value of a two-digit ASCII sequence. -/
def digits2 (a b : Char) : Nat :=
  (a.toNat - 48) * 10 + (b.toNat - 48)

/-- `validate_date_format`: the regex `^\d{4}-\d{2}-\d{2}T\d{2}:\d{2}$`
followed by `strptime(date_str, "%Y-%m-%dT%H:%M")`; `strptime` accepts years
1..9999, months 1..12, valid day-of-month, hours 0..23, minutes 0..59. -/
def validate_date_format (s : String) : Bool :=
  match s.toList with
  | [y1, y2, y3, y4, '-', m1, m2, '-', d1, d2, 'T', h1, h2, ':', n1, n2] =>
      y1.isDigit && y2.isDigit && y3.isDigit && y4.isDigit &&
      m1.isDigit && m2.isDigit && d1.isDigit && d2.isDigit &&
      h1.isDigit && h2.isDigit && n1.isDigit && n2.isDigit &&
      (let year := (((y1.toNat - 48) * 10 + (y2.toNat - 48)) * 10 + (y3.toNat - 48)) * 10 + (y4.toNat - 48)
       let month := digits2 m1 m2
       let day := digits2 d1 d2
       let hour := digits2 h1 h2
       let minute := digits2 n1 n2
       decide (1 ≤ year ∧ 1 ≤ month ∧ month ≤ 12 ∧ 1 ≤ day ∧
               day ≤ daysInMonth year month ∧ hour ≤ 23 ∧ minute ≤ 59))
  | _ => false

/-- A character matched by the class `[-\w.]` (ASCII fragment). -/
def urlBodyChar (c : Char) : Bool :=
  c = '-' || c.isAlpha || c.isDigit || c = '_' || c = '.'

/-- A hexadecimal digit, the class `[\da-fA-F]`. -/
def hexChar (c : Char) : Bool :=
  c.isDigit || ('a' ≤ c && c ≤ 'f') || ('A' ≤ c && c ≤ 'F')

/-- After the scheme, `re.match` needs at least one unit of
`(?:[-\w.]|(?:%[\da-fA-F]{2}))+` at the current position (the pattern is not
anchored at the end). -/
def urlBodyStarts : List Char → Bool
  | [] => false
  | '%' :: a :: b :: _ => hexChar a && hexChar b
  | '%' :: _ => false
  | c :: _ => urlBodyChar c

/-- `validate_url`: empty URLs are accepted; otherwise the string must match
the prefix pattern `^https?://(?:[-\w.]|(?:%[\da-fA-F]{2}))+`. -/
def validate_url (u : String) : Bool :=
  if u = "" then true
  else match u.toList with
    | 'h' :: 't' :: 't' :: 'p' :: 's' :: ':' :: '/' :: '/' :: rest => urlBodyStarts rest
    | 'h' :: 't' :: 't' :: 'p' :: ':' :: '/' :: '/' :: rest => urlBodyStarts rest
    | _ => false

/-! ## Global state and dict helpers -/

/-- The process-global mutable state of `app.py`:
`global_statuses`, `original_statuses`, `has_unsaved_changes`,
`working_copies` (a Python dict with `int` keys, embedded as an association
list with dict update/delete semantics). -/
structure BotState where
  global_statuses : Option (List ServiceRecord)
  original_statuses : Option (List ServiceRecord)
  has_unsaved_changes : Bool
  working_copies : List (Int × ServiceRecord)
deriving DecidableEq, Repr

/-- `working_copies[k]` lookup (`k in working_copies` / `working_copies[k]`). -/
def lookupDraft : List (Int × ServiceRecord) → Int → Option ServiceRecord
  | [], _ => none
  | (k, v) :: rest, key => if k = key then some v else lookupDraft rest key

/-- `del working_copies[k]` (also a no-op when the key is absent, used only
after membership tests in the source). -/
def eraseDraft (wc : List (Int × ServiceRecord)) (key : Int) : List (Int × ServiceRecord) :=
  wc.filter (fun p => p.1 ≠ key)

/-- `working_copies[k] = v`: replace any binding of `k`, else append. -/
def setDraft (wc : List (Int × ServiceRecord)) (key : Int) (v : ServiceRecord) :
    List (Int × ServiceRecord) :=
  if wc.any (fun p => p.1 = key) then
    wc.map (fun p => if p.1 = key then (key, v) else p)
  else
    wc ++ [(key, v)]

/-! ## `has_changes` and `load_status_data` -/

/-- `has_changes()`: returns `False` when either global is `None`; otherwise a
length check, then comparison of the `json.dumps(_, sort_keys=True)`
serialisations, embedded as equality of the key-sorted JSON trees. -/
def has_changes (s : BotState) : Bool :=
  match s.original_statuses, s.global_statuses with
  | none, _ => false
  | _, none => false
  | some orig, some glob =>
      if glob.length ≠ orig.length then true
      else !(Json.beq (statusesJson glob) (statusesJson orig))

/-- `load_status_data()`: `fetched = some recs` models a successful
`requests.get` + `.json()`, `none` a `requests.RequestException`.  On success
both globals are replaced (`original_statuses` by a deep copy — values are
immutable here, so the copy is the value itself), the flag is cleared and the
data returned; on failure the state is untouched and `[]` is returned. -/
def load_status_data (s : BotState) (fetched : Option (List ServiceRecord)) :
    BotState × List ServiceRecord :=
  match fetched with
  | some recs =>
      ({ s with global_statuses := some recs,
                original_statuses := some recs,
                has_unsaved_changes := false }, recs)
  | none => (s, [])

/-! ## Submission validation (`handle_edit_service_submission` /
`handle_add_service_submission`, lines 666–841 and 1501–1671)

Both handlers run the same pipeline: extract the four scalar form values,
validate the main date, walk the update inputs in block-id order building
`updates` while collecting per-block errors into the `errors` dict, then the
three `Basic validations`.  Error keys are the Slack block ids; we embed them
as `FieldKey` (in the source the zero-updates error and the empty-summary
error share the literal `service_summary_block` key). -/

/-- The block id an error is filed under. -/
inductive FieldKey where
  | serviceName
  | serviceDate
  | serviceSummary
  | updateDate (idx : Nat)
  | updateUrl (idx : Nat)
deriving DecidableEq, Repr

/-- `errors[k] = msg` on a Python dict: overwrite in place or append. -/
def dictAssign (m : List (FieldKey × String)) (k : FieldKey) (msg : String) :
    List (FieldKey × String) :=
  if m.any (fun p => p.1 = k) then
    m.map (fun p => if p.1 = k then (k, msg) else p)
  else
    m ++ [(k, msg)]

/-- `k in errors`. -/
def hasKey (m : List (FieldKey × String)) (k : FieldKey) : Bool :=
  m.any (fun p => p.1 = k)

/-- One update's form values: the date and details inputs, and the url
input's value when a url block exists for that index (`none` = no block). -/
structure UpdateInput where
  date : String
  details : String
  url : Option String
deriving DecidableEq, Repr

/-- The form values of one submission: the four scalar inputs plus the update
inputs listed in the order the source iterates them
(`sorted(update_blocks.keys())`). -/
structure SubmissionInput where
  serviceName : String
  serviceStatus : String
  serviceDate : String
  serviceSummary : String
  updates : List UpdateInput
deriving DecidableEq, Repr

/-- The `# Process updates` loop: for each update, an invalid date files an
error under its date block and skips the entry (`continue`); an invalid
non-empty url files an error under its url block and skips the entry; the
`url` key is added only when the url value is non-empty. -/
def processUpdates :
    Nat → List UpdateInput → List (FieldKey × String) → List UpdateEntry →
    List (FieldKey × String) × List UpdateEntry
  | _, [], errs, ups => (errs, ups)
  | idx, u :: rest, errs, ups =>
      if validate_date_format u.date then
        match u.url with
        | some uv =>
            if uv = "" then
              processUpdates (idx + 1) rest errs (ups ++ [⟨u.date, u.details, none⟩])
            else if validate_url uv then
              processUpdates (idx + 1) rest errs (ups ++ [⟨u.date, u.details, some uv⟩])
            else
              processUpdates (idx + 1) rest
                (dictAssign errs (.updateUrl idx)
                  "Please enter a valid URL starting with http:// or https://") ups
        | none =>
            processUpdates (idx + 1) rest errs (ups ++ [⟨u.date, u.details, none⟩])
      else
        processUpdates (idx + 1) rest
          (dictAssign errs (.updateDate idx)
            "Date must be in format YYYY-MM-DDThh:mm (e.g. 2024-05-20T14:30)") ups

/-- The `errors` dict after the `# Validate the main date` step. -/
def mainDateErrs (inp : SubmissionInput) : List (FieldKey × String) :=
  if validate_date_format inp.serviceDate then []
  else dictAssign [] .serviceDate
    "Date must be in format YYYY-MM-DDThh:mm (e.g. 2024-05-20T14:30)"

/-- The `errors` dict and built `updates` after the `# Process updates`
loop. -/
def submissionProcessed (inp : SubmissionInput) :
    List (FieldKey × String) × List UpdateEntry :=
  processUpdates 0 inp.updates (mainDateErrs inp) []

/-- The whole validation pipeline shared by the edit and add submission
handlers: main-date check, update processing, then the three `Basic
validations` in source order (so an empty summary overwrites the
zero-updates message filed under the same block id).  Returns the final
`errors` dict and the built record. -/
def buildSubmission (inp : SubmissionInput) : List (FieldKey × String) × ServiceRecord :=
  let r := submissionProcessed inp
  let errs2 :=
    if r.2.isEmpty then dictAssign r.1 .serviceSummary "At least one update is required"
    else r.1
  let errs3 :=
    if inp.serviceName = "" then dictAssign errs2 .serviceName "Service name cannot be empty"
    else errs2
  let errs4 :=
    if inp.serviceSummary = "" then dictAssign errs3 .serviceSummary "Summary cannot be empty"
    else errs3
  (errs4,
   { status := inp.serviceStatus, affectedServices := inp.serviceName,
     summary := inp.serviceSummary, date := inp.serviceDate, updates := r.2 })

/-! ## The submission handlers -/

/-- Observable outcome of a submission handler: `ack` with the errors dict,
or a normal `ack` followed by the state mutation, or the `except Exception`
path (e.g. `global_statuses[i] = ...` raising on a bad index or a `None`
list), which acks and posts an error message without mutating. -/
inductive SubmitOutcome where
  | validationErrors (errs : List (FieldKey × String))
  | saved (rec : ServiceRecord)
  | caughtException
deriving DecidableEq, Repr

/-- `handle_edit_service_submission` with the record index `service_index`
parsed from `private_metadata`: on validation errors, `ack` with them and
return; otherwise `global_statuses[service_index] = updated_service`,
`has_unsaved_changes = True`, and `del working_copies[service_index]` when
present.  A `None` list or an out-of-range index raises at the assignment,
reaching the handler's `except` branch with nothing mutated.  (The UI only
produces indices `0 ≤ i < len`; the embedding takes `service_index : Nat`.) -/
def handle_edit_service_submission (s : BotState) (service_index : Nat)
    (inp : SubmissionInput) : BotState × SubmitOutcome :=
  let r := buildSubmission inp
  if r.1.isEmpty then
    match s.global_statuses with
    | none => (s, .caughtException)
    | some l =>
        if service_index < l.length then
          ({ s with global_statuses := some (l.set service_index r.2),
                    has_unsaved_changes := true,
                    working_copies := eraseDraft s.working_copies service_index },
           .saved r.2)
        else (s, .caughtException)
  else (s, .validationErrors r.1)

/-- `handle_add_service_submission`: same validation pipeline; on success
`global_statuses.append(new_service)`, `has_unsaved_changes = True`, and
`del working_copies[-1]` when present.  A `None` list raises at the
`.append`, reaching the `except` branch with nothing mutated. -/
def handle_add_service_submission (s : BotState) (inp : SubmissionInput) :
    BotState × SubmitOutcome :=
  let r := buildSubmission inp
  if r.1.isEmpty then
    match s.global_statuses with
    | none => (s, .caughtException)
    | some l =>
        ({ s with global_statuses := some (l ++ [r.2]),
                  has_unsaved_changes := true,
                  working_copies := eraseDraft s.working_copies (-1) },
         .saved r.2)
  else (s, .validationErrors r.1)

/-! ## `handle_delete_service` (lines 1414–1448) -/

/-- Whether the Python subscript `l[i]` succeeds: `-len(l) <= i < len(l)`
(negative indices wrap from the end). -/
def pySubscriptOk (len : Nat) (i : Int) : Bool :=
  decide (-(len : Int) ≤ i ∧ i < (len : Int))

/-- The position a Python subscript resolves to, given `pySubscriptOk`. -/
def pyIndex (len : Nat) (i : Int) : Nat :=
  if 0 ≤ i then i.toNat else ((len : Int) + i).toNat

/-- Outcome of `handle_delete_service`: success, the explicit
`Service index out of range` message, the `except` branch catching the
`IndexError("list index out of range")` raised by the name lookup on line
1425 (which runs before the bounds check), or the `except` branch catching
the `TypeError` from subscripting a `None` list. -/
inductive DeleteServiceOutcome where
  | deleted
  | outOfRangeMsg
  | caughtIndexError
  | caughtTypeError
deriving DecidableEq, Repr

/-- `handle_delete_service`: first `global_statuses[service_index]` (the
service-name lookup, raising on a bad subscript), then the
`0 <= service_index < len(global_statuses)` check; if it passes,
`global_statuses.pop(service_index)`, `has_unsaved_changes = True`, and
`del working_copies[service_index]` when present. -/
def handle_delete_service (s : BotState) (service_index : Int) :
    BotState × DeleteServiceOutcome :=
  match s.global_statuses with
  | none => (s, .caughtTypeError)
  | some l =>
      if pySubscriptOk l.length service_index then
        if 0 ≤ service_index ∧ service_index < (l.length : Int) then
          ({ s with global_statuses := some (l.eraseIdx service_index.toNat),
                    has_unsaved_changes := true,
                    working_copies := eraseDraft s.working_copies service_index },
           .deleted)
        else (s, .outOfRangeMsg)
      else (s, .caughtIndexError)

/-! ## `handle_delete_update` (lines 1038–1097) -/

/-- Outcome of `handle_delete_update`: success, the `Update not found`
message, or the `except` branch (a pop below `-len` raising `IndexError`, a
missing service subscript, or a `None` list). -/
inductive DeleteUpdateOutcome where
  | removed
  | notFoundMsg
  | caughtException
deriving DecidableEq, Repr

/-- `handle_delete_update`: fetch the working copy at `service_index`,
creating one from `global_statuses[service_index]` when absent; if
`update_index < len(updates)`, `updates.pop(update_index)` (Python pop:
negative indices wrap; below `-len` raises `IndexError` into the `except`
branch) and store the copy back; otherwise post `Update not found`.  On every
failure path the registry is left untouched (a freshly created copy is only
stored on success). -/
def handle_delete_update (s : BotState) (service_index update_index : Int) :
    BotState × DeleteUpdateOutcome :=
  let wc? : Option ServiceRecord :=
    match lookupDraft s.working_copies service_index with
    | some w => some w
    | none =>
        match s.global_statuses with
        | none => none
        | some l =>
            if pySubscriptOk l.length service_index then
              some (l.getD (pyIndex l.length service_index) ⟨"", "", "", "", []⟩)
            else none
  match wc? with
  | none => (s, .caughtException)
  | some w =>
      if update_index < (w.updates.length : Int) then
        if pySubscriptOk w.updates.length update_index then
          let w' := { w with updates := w.updates.eraseIdx (pyIndex w.updates.length update_index) }
          ({ s with working_copies := setDraft s.working_copies service_index w' }, .removed)
        else (s, .caughtException)
      else (s, .notFoundMsg)

/-! ## `handle_submit_changes` (lines 1688–1810) -/

/-- The GitHub calls `handle_submit_changes` can issue: the contents GET (for
the file's SHA) and the contents PUT. -/
inductive RemoteCall where
  | getFile
  | putFile
deriving DecidableEq, Repr

/-- The environment the handler consults: `GITHUB_TOKEN` (absent or empty is
falsy), the GET outcome (`none` = status ≠ 200, `some sha` otherwise) and
whether the PUT returns 200/201. -/
structure RemoteEnv where
  githubToken : Option String
  fetchSha : Option String
  putOk : Bool
deriving DecidableEq, Repr

/-- What `handle_submit_changes` reports back. -/
inductive SubmitChangesOutcome where
  | noChangesMsg
  | noTokenMsg
  | getFileErrorMsg
  | putFileErrorMsg
  | published
deriving DecidableEq, Repr

/-- `handle_submit_changes`: gated on `has_changes()`; then the token check;
then the GET for the SHA; then the PUT; on PUT success only
`has_unsaved_changes = False` is assigned — `original_statuses` is not
touched.  The third component lists the GitHub calls issued. -/
def handle_submit_changes (s : BotState) (env : RemoteEnv) :
    BotState × SubmitChangesOutcome × List RemoteCall :=
  if has_changes s then
    match env.githubToken with
    | none => (s, .noTokenMsg, [])
    | some tok =>
        if tok = "" then (s, .noTokenMsg, [])
        else
          match env.fetchSha with
          | none => (s, .getFileErrorMsg, [.getFile])
          | some _ =>
              if env.putOk then
                ({ s with has_unsaved_changes := false }, .published, [.getFile, .putFile])
              else (s, .putFileErrorMsg, [.getFile, .putFile])
  else (s, .noChangesMsg, [])

/-! ## Concrete fixtures used by witnesses and counterexamples -/

/-- The record of spec §8's scenario. -/
def sampleRecord : ServiceRecord :=
  { status := "Down", affectedServices := "API", summary := "outage",
    date := "2024-05-20T10:00",
    updates := [{ date := "2024-05-20T10:00", details := "ongoing", url := none }] }

/-- A fresh session: nothing loaded yet. -/
def emptyState : BotState :=
  { global_statuses := none, original_statuses := none,
    has_unsaved_changes := false, working_copies := [] }

/-- A cleanly loaded session holding `[sampleRecord]`. -/
def loadedState : BotState :=
  { global_statuses := some [sampleRecord], original_statuses := some [sampleRecord],
    has_unsaved_changes := false, working_copies := [] }

/-- A session whose canonical list diverges from its baseline. -/
def dirtyState : BotState :=
  { global_statuses := some [sampleRecord], original_statuses := some [],
    has_unsaved_changes := true, working_copies := [] }

/-- A remote environment on which every GitHub call succeeds. -/
def goodEnv : RemoteEnv :=
  { githubToken := some "token", fetchSha := some "sha", putOk := true }

/-- A submission whose fields all validate. -/
def validInput : SubmissionInput :=
  { serviceName := "API", serviceStatus := "Resolved",
    serviceDate := "2024-05-20T10:00", serviceSummary := "outage",
    updates := [{ date := "2024-05-20T11:00", details := "fixed", url := none }] }

/-- A submission violating several rules at once (bad date, empty name,
empty summary, no updates). -/
def invalidInput : SubmissionInput :=
  { serviceName := "", serviceStatus := "Resolved", serviceDate := "",
    serviceSummary := "", updates := [] }

/-- A submission identical to `sampleRecord` field for field. -/
def revertInput : SubmissionInput :=
  { serviceName := "API", serviceStatus := "Down",
    serviceDate := "2024-05-20T10:00", serviceSummary := "outage",
    updates := [{ date := "2024-05-20T10:00", details := "ongoing", url := none }] }

/-- A session with a single-entry draft open at key 0. -/
def draftState : BotState :=
  { global_statuses := some [sampleRecord], original_statuses := some [sampleRecord],
    has_unsaved_changes := false, working_copies := [(0, sampleRecord)] }

/-- A submission valid everywhere except that its single update entry has
empty `details` — which the handlers never check. -/
def emptyDetailsInput : SubmissionInput :=
  { serviceName := "API", serviceStatus := "Down",
    serviceDate := "2024-05-20T10:00", serviceSummary := "outage",
    updates := [{ date := "2024-05-20T10:00", details := "", url := none }] }

/-- A submission violating every checked rule at once: bad main date, empty
name and summary, one update with an invalid date and one with an invalid
non-empty url (so zero updates survive processing). -/
def allViolationsInput : SubmissionInput :=
  { serviceName := "", serviceStatus := "Resolved", serviceDate := "nope",
    serviceSummary := "",
    updates := [{ date := "2024-13-40T99:99", details := "", url := none },
                { date := "2024-05-20T10:00", details := "y", url := some "notaurl" }] }

/-! ## Lemmas: the serialisation-level comparison is structural equality -/

theorem Json.beq_iff (a b : Json) : Json.beq a b = true ↔ a = b := by
  induction a, b using Json.beq.induct
  case case1 => simp [Json.beq]
  case case2 => simp [Json.beq]
  case case3 => simp_all [Json.beq]
  case case4 => simp [Json.beq]
  case case5 => simp_all [Json.beq]
  case case6 a b h1 h2 h3 h4 h5 =>
    cases a with
    | str s =>
      cases b with
      | str t => exact (h1 s t rfl rfl).elim
      | arr ys => simp [Json.beq]
      | obj gs => simp [Json.beq]
    | arr xs =>
      cases b with
      | str t => simp [Json.beq]
      | arr ys =>
        cases xs with
        | nil =>
          cases ys with
          | nil => exact (h2 rfl rfl).elim
          | cons y ys => simp [Json.beq]
        | cons x xs =>
          cases ys with
          | nil => simp [Json.beq]
          | cons y ys => exact (h3 x xs y ys rfl rfl).elim
      | obj gs => simp [Json.beq]
    | obj fs =>
      cases b with
      | str t => simp [Json.beq]
      | arr ys => simp [Json.beq]
      | obj gs =>
        cases fs with
        | nil =>
          cases gs with
          | nil => exact (h4 rfl rfl).elim
          | cons g gs => simp [Json.beq]
        | cons f fs =>
          cases gs with
          | nil => simp [Json.beq]
          | cons g gs =>
            obtain ⟨k, v⟩ := f
            obtain ⟨l, w⟩ := g
            exact (h5 k v fs l w gs rfl rfl).elim

theorem updateToJson_injective : Function.Injective updateToJson := by
  rintro ⟨d, t, u⟩ ⟨d', t', u'⟩ h
  cases u <;> cases u' <;> simp [updateToJson] at h <;> simp_all

theorem recordToJson_injective : Function.Injective recordToJson := by
  rintro ⟨st, a, su, d, us⟩ ⟨st', a', su', d', us'⟩ h
  simp only [recordToJson, Json.obj.injEq, List.cons.injEq, Prod.mk.injEq,
    Json.str.injEq, Json.arr.injEq, and_true] at h
  obtain ⟨⟨-, h1⟩, ⟨-, h2⟩, ⟨-, h3⟩, ⟨-, h4⟩, -, h5⟩ := h
  have h6 := List.map_injective_iff.2 updateToJson_injective h5
  simp_all

theorem statusesJson_injective : Function.Injective statusesJson := by
  intro a b h
  simp only [statusesJson, Json.arr.injEq] at h
  exact List.map_injective_iff.2 recordToJson_injective h

/-- `has_changes()` is exactly structural inequality of the two lists once
both are loaded: the `sort_keys=True` dump comparison neither loses array
order nor ignores any field. -/
theorem has_changes_true_iff (s : BotState) (glob orig : List ServiceRecord)
    (hg : s.global_statuses = some glob) (ho : s.original_statuses = some orig) :
    (has_changes s = true ↔ glob ≠ orig) := by
  have hbeq : Json.beq (statusesJson glob) (statusesJson orig) = true ↔ glob = orig := by
    rw [Json.beq_iff]
    exact ⟨fun h => statusesJson_injective h, fun h => by rw [h]⟩
  simp only [has_changes, hg, ho]
  by_cases hlen : glob.length = orig.length
  · simp only [hlen, ne_eq, not_true_eq_false, if_false, ite_false, Bool.not_eq_true']
    constructor
    · intro hb heq
      rw [← hbeq] at heq
      rw [heq] at hb
      cases hb
    · intro hne
      cases hb : Json.beq (statusesJson glob) (statusesJson orig)
      · rfl
      · exact absurd (hbeq.mp hb) hne
  · simp only [ne_eq, hlen, not_false_eq_true, if_true, ite_true, true_iff]
    intro heq
    exact hlen (by rw [heq])

/-- A state whose two lists are the same value is clean. -/
theorem has_changes_eq_false_of_eq (s : BotState) (l : List ServiceRecord)
    (hg : s.global_statuses = some l) (ho : s.original_statuses = some l) :
    has_changes s = false := by
  cases hb : has_changes s
  · rfl
  · exact absurd ((has_changes_true_iff s l l hg ho).mp hb) (by simp)

/-! ## Lemmas: the draft dictionary -/

theorem lookupDraft_eraseDraft_self (wc : List (Int × ServiceRecord)) (k : Int) :
    lookupDraft (eraseDraft wc k) k = none := by
  induction wc with
  | nil => rfl
  | cons p rest ih =>
      by_cases hp : p.1 = k
      · simpa [eraseDraft, List.filter_cons, hp] using ih
      · simpa [eraseDraft, List.filter_cons, hp, lookupDraft] using ih

theorem lookupDraft_append (xs ys : List (Int × ServiceRecord)) (k : Int) :
    lookupDraft (xs ++ ys) k =
      (match lookupDraft xs k with
       | some v => some v
       | none => lookupDraft ys k) := by
  induction xs with
  | nil => simp [lookupDraft]
  | cons p rest ih =>
      by_cases hp : p.1 = k <;> simp [lookupDraft, hp, ih]

theorem lookupDraft_setDraft_self (wc : List (Int × ServiceRecord)) (k : Int)
    (v : ServiceRecord) : lookupDraft (setDraft wc k v) k = some v := by
  unfold setDraft
  by_cases h : wc.any (fun p => p.1 = k)
  · simp only [h, if_true]
    induction wc with
    | nil => simp at h
    | cons p rest ih =>
        rw [List.map_cons]
        by_cases hp : p.1 = k
        · rw [if_pos hp]
          simp [lookupDraft]
        · rw [if_neg hp]
          have h' : rest.any (fun p => p.1 = k) := by
            simpa [List.any_cons, hp] using h
          simpa [lookupDraft, hp] using ih h'
  · simp only [h, if_false, Bool.false_eq_true]
    have hnone : lookupDraft wc k = none := by
      induction wc with
      | nil => rfl
      | cons p rest ih =>
          simp only [List.any_cons, Bool.or_eq_true, decide_eq_true_eq, not_or] at h
          simp [lookupDraft, h.1, ih (by simpa using h.2)]
    simp [lookupDraft_append, hnone, lookupDraft]

theorem set_get_self {α : Type} (l : List α) (i : Nat) (h : i < l.length) :
    l.set i (l.get ⟨i, h⟩) = l := by
  apply List.ext_getElem?
  intro j
  rw [List.getElem?_set]
  split
  · next hji => subst hji; simp [List.getElem?_eq_getElem h]
  · rfl

/-! ## Claims -/

/-- C8: `load()` on success replaces both `global_statuses` and
`original_statuses` with the fetched content, clears the unsaved flag and the
dirty check; on a fetch failure it returns `[]`, leaves the baseline (and the
whole state) as-is, and returns instead of raising. -/
theorem claim_C8_load_replaces_or_fails_soft (s : BotState)
    (fetched : Option (List ServiceRecord)) :
    (∀ recs, fetched = some recs →
        load_status_data s fetched =
          ({ s with global_statuses := some recs, original_statuses := some recs,
                    has_unsaved_changes := false }, recs) ∧
        has_changes (load_status_data s fetched).1 = false) ∧
    (fetched = none →
        load_status_data s fetched = (s, []) ∧
        (load_status_data s fetched).1.original_statuses = s.original_statuses) := by
  constructor
  · intro recs hrecs
    subst hrecs
    refine ⟨rfl, ?_⟩
    cases hb : has_changes (load_status_data s (some recs)).1
    · rfl
    · have := (has_changes_true_iff (load_status_data s (some recs)).1 recs recs rfl rfl).mp hb
      exact absurd rfl this
  · intro hnone
    subst hnone
    exact ⟨rfl, rfl⟩

theorem claim_C8_witness :
    (load_status_data emptyState (some [sampleRecord]) =
        ({ emptyState with global_statuses := some [sampleRecord],
                           original_statuses := some [sampleRecord],
                           has_unsaved_changes := false }, [sampleRecord]) ∧
      has_changes (load_status_data emptyState (some [sampleRecord])).1 = false) ∧
    (load_status_data dirtyState none = (dirtyState, []) ∧
      (load_status_data dirtyState none).1.original_statuses = dirtyState.original_statuses) :=
  ⟨(claim_C8_load_replaces_or_fails_soft emptyState (some [sampleRecord])).1 [sampleRecord] rfl,
   (claim_C8_load_replaces_or_fails_soft dirtyState none).2 rfl⟩

/-- C9: when `has_changes()` is false, `handle_submit_changes` posts the
"no changes" message, issues no GitHub call, and leaves the state unchanged. -/
theorem claim_C9_publish_noop_when_clean (s : BotState) (env : RemoteEnv)
    (h : has_changes s = false) :
    handle_submit_changes s env = (s, .noChangesMsg, []) := by
  simp [handle_submit_changes, h]

theorem claim_C9_witness :
    has_changes loadedState = false ∧
    handle_submit_changes loadedState goodEnv = (loadedState, .noChangesMsg, []) :=
  ⟨has_changes_eq_false_of_eq loadedState [sampleRecord] rfl rfl,
   claim_C9_publish_noop_when_clean loadedState goodEnv
     (has_changes_eq_false_of_eq loadedState [sampleRecord] rfl rfl)⟩

/-- C10: before any load (either global still `None`), `has_changes()`
returns false rather than failing, so the publish gate reports "no changes"
on a fresh session. -/
theorem claim_C10_fresh_session_clean (s : BotState) (env : RemoteEnv)
    (h : s.original_statuses = none ∨ s.global_statuses = none) :
    has_changes s = false ∧ handle_submit_changes s env = (s, .noChangesMsg, []) := by
  have hc : has_changes s = false := by
    unfold has_changes
    rcases h with h | h
    · rw [h]
      cases s.global_statuses <;> rfl
    · rw [h]
      cases s.original_statuses <;> rfl
  exact ⟨hc, by simp [handle_submit_changes, hc]⟩

theorem claim_C10_witness :
    has_changes emptyState = false ∧
    handle_submit_changes emptyState goodEnv = (emptyState, .noChangesMsg, []) :=
  claim_C10_fresh_session_clean emptyState goodEnv (Or.inl rfl)

/-- C2: any validation violation makes both submission handlers `ack` with
the full violation dict and return before any mutation: the state (canonical
list and draft registry alike) is exactly the input state. -/
theorem claim_C2_violation_no_mutation (s : BotState) (i : Nat)
    (inp : SubmissionInput) (h : (buildSubmission inp).1 ≠ []) :
    handle_edit_service_submission s i inp =
      (s, .validationErrors (buildSubmission inp).1) ∧
    handle_add_service_submission s inp =
      (s, .validationErrors (buildSubmission inp).1) := by
  have h' : (buildSubmission inp).1.isEmpty = false := by
    cases hb : (buildSubmission inp).1
    · exact absurd hb h
    · simp [hb]
  constructor
  · simp [handle_edit_service_submission, h']
  · simp [handle_add_service_submission, h']

theorem claim_C2_witness :
    (buildSubmission invalidInput).1 ≠ [] ∧
    (handle_edit_service_submission loadedState 0 invalidInput =
        (loadedState, .validationErrors (buildSubmission invalidInput).1) ∧
      handle_add_service_submission loadedState invalidInput =
        (loadedState, .validationErrors (buildSubmission invalidInput).1)) :=
  ⟨by decide, claim_C2_violation_no_mutation loadedState 0 invalidInput (by decide)⟩

/-- C7: with no violations, the edit handler overwrites
`global_statuses[key]` with the validated record and the add handler appends
it; both then discard the draft at their key (`key` for edits, `-1` for
creation). -/
theorem claim_C7_commit_writes_and_discards (s : BotState)
    (l : List ServiceRecord) (i : Nat) (inp : SubmissionInput)
    (hok : (buildSubmission inp).1 = []) (hg : s.global_statuses = some l)
    (hi : i < l.length) :
    handle_edit_service_submission s i inp =
      ({ s with global_statuses := some (l.set i (buildSubmission inp).2),
                has_unsaved_changes := true,
                working_copies := eraseDraft s.working_copies i },
       .saved (buildSubmission inp).2) ∧
    lookupDraft (handle_edit_service_submission s i inp).1.working_copies i = none ∧
    handle_add_service_submission s inp =
      ({ s with global_statuses := some (l ++ [(buildSubmission inp).2]),
                has_unsaved_changes := true,
                working_copies := eraseDraft s.working_copies (-1) },
       .saved (buildSubmission inp).2) ∧
    lookupDraft (handle_add_service_submission s inp).1.working_copies (-1) = none := by
  have h' : (buildSubmission inp).1.isEmpty = true := by rw [hok]; rfl
  refine ⟨?_, ?_, ?_, ?_⟩ <;>
    simp [handle_edit_service_submission, handle_add_service_submission, h', hg, hi,
      lookupDraft_eraseDraft_self]

theorem claim_C7_witness :
    (buildSubmission validInput).1 = [] ∧
    (0 : Nat) < [sampleRecord].length ∧
    (handle_edit_service_submission loadedState 0 validInput =
        ({ loadedState with
            global_statuses := some ([sampleRecord].set 0 (buildSubmission validInput).2),
            has_unsaved_changes := true,
            working_copies := eraseDraft loadedState.working_copies 0 },
         .saved (buildSubmission validInput).2) ∧
      lookupDraft (handle_edit_service_submission loadedState 0 validInput).1.working_copies 0 =
        none ∧
      handle_add_service_submission loadedState validInput =
        ({ loadedState with
            global_statuses := some ([sampleRecord] ++ [(buildSubmission validInput).2]),
            has_unsaved_changes := true,
            working_copies := eraseDraft loadedState.working_copies (-1) },
         .saved (buildSubmission validInput).2) ∧
      lookupDraft (handle_add_service_submission loadedState validInput).1.working_copies (-1) =
        none) :=
  ⟨by decide, by decide,
   claim_C7_commit_writes_and_discards loadedState [sampleRecord] 0 validInput
     (by decide) rfl (by decide)⟩

/-- C1 (code bug): a successful publish does not rebase `original_statuses`,
and `has_changes()` ignores the `has_unsaved_changes` flag the handler
resets, so immediately after a successful publish the dirty check still
reports `true`.  Evaluated at a concrete dirty state on which every GitHub
call succeeds. -/
theorem claim_C1_publish_leaves_dirty :
    (handle_submit_changes dirtyState goodEnv).2.1 = .published ∧
    (handle_submit_changes dirtyState goodEnv).1.original_statuses = some [] ∧
    (handle_submit_changes dirtyState goodEnv).1.global_statuses = some [sampleRecord] ∧
    (handle_submit_changes dirtyState goodEnv).1.has_unsaved_changes = false ∧
    has_changes (handle_submit_changes dirtyState goodEnv).1 = true := by
  refine ⟨rfl, rfl, rfl, rfl, ?_⟩
  decide

/-- C4: once both lists are loaded, `has_changes()` is true exactly when the
canonical list and the baseline differ under recursive structural equality —
order-sensitive on records and on each record's `updates`, comparing every
field (the serialisation-level comparison is injective); consequently a
commit whose validated record equals the baseline record leaves the dirty
check false. -/
theorem claim_C4_dirty_iff_structural_diff (s : BotState) :
    (∀ glob orig, s.global_statuses = some glob → s.original_statuses = some orig →
        (has_changes s = true ↔ glob ≠ orig)) ∧
    (∀ (l : List ServiceRecord) (i : Nat) (inp : SubmissionInput)
        (hg : s.global_statuses = some l) (ho : s.original_statuses = some l)
        (hi : i < l.length),
        (buildSubmission inp).1 = [] →
        (buildSubmission inp).2 = l.get ⟨i, hi⟩ →
        has_changes (handle_edit_service_submission s i inp).1 = false) := by
  constructor
  · exact fun glob orig hg ho => has_changes_true_iff s glob orig hg ho
  · intro l i inp hg ho hi hok hrec
    have h' : (buildSubmission inp).1.isEmpty = true := by rw [hok]; rfl
    have hstate :
        (handle_edit_service_submission s i inp).1 =
          { s with global_statuses := some (l.set i (buildSubmission inp).2),
                   has_unsaved_changes := true,
                   working_copies := eraseDraft s.working_copies i } := by
      simp [handle_edit_service_submission, h', hg, hi]
    rw [hstate, hrec, set_get_self l i hi]
    exact has_changes_eq_false_of_eq _ l rfl ho

theorem claim_C4_witness :
    (has_changes dirtyState = true ↔ [sampleRecord] ≠ ([] : List ServiceRecord)) ∧
    has_changes (handle_edit_service_submission loadedState 0 revertInput).1 = false :=
  ⟨(claim_C4_dirty_iff_structural_diff dirtyState).1 [sampleRecord] [] rfl rfl,
   (claim_C4_dirty_iff_structural_diff loadedState).2 [sampleRecord] 0 revertInput
     rfl rfl (by decide) (by decide) (by decide)⟩

/-- C5: with a loaded list, `handle_delete_service` on an invalid index
fails with an index-out-of-range report (the explicit range message, or the
caught `IndexError("list index out of range")` from the name lookup that
precedes the bounds check) and mutates nothing; on a valid index it removes
exactly that record, shifting the later ones down one position with their
field values intact, and discards any draft keyed at that index. -/
theorem claim_C5_delete_record (s : BotState) (l : List ServiceRecord) (i : Int)
    (hg : s.global_statuses = some l) :
    (¬ (0 ≤ i ∧ i < (l.length : Int)) →
        (handle_delete_service s i).1 = s ∧
        ((handle_delete_service s i).2 = .outOfRangeMsg ∨
         (handle_delete_service s i).2 = .caughtIndexError)) ∧
    (∀ (h0 : 0 ≤ i) (hlt : i < (l.length : Int)),
        handle_delete_service s i =
          ({ s with global_statuses := some (l.eraseIdx i.toNat),
                    has_unsaved_changes := true,
                    working_copies := eraseDraft s.working_copies i }, .deleted) ∧
        (l.eraseIdx i.toNat).length + 1 = l.length ∧
        (∀ j : Nat, j < i.toNat → (l.eraseIdx i.toNat).get? j = l.get? j) ∧
        (∀ j : Nat, i.toNat ≤ j → (l.eraseIdx i.toNat).get? j = l.get? (j + 1)) ∧
        lookupDraft (handle_delete_service s i).1.working_copies i = none) := by
  constructor
  · intro hbad
    by_cases hsub : pySubscriptOk l.length i
    · have : ¬ (0 ≤ i ∧ i < (l.length : Int)) := hbad
      simp [handle_delete_service, hg, hsub, this]
    · simp [handle_delete_service, hg, hsub]
  · intro h0 hlt
    have hsub : pySubscriptOk l.length i = true := by
      simp only [pySubscriptOk, decide_eq_true_eq]
      omega
    have hval : 0 ≤ i ∧ i < (l.length : Int) := ⟨h0, hlt⟩
    have hnat : i.toNat < l.length := by omega
    have hstate :
        handle_delete_service s i =
          ({ s with global_statuses := some (l.eraseIdx i.toNat),
                    has_unsaved_changes := true,
                    working_copies := eraseDraft s.working_copies i }, .deleted) := by
      simp [handle_delete_service, hg, hsub, hval]
    refine ⟨hstate, ?_, ?_, ?_, ?_⟩
    · rw [List.length_eraseIdx_of_lt hnat]
      omega
    · intro j hj
      simp only [List.get?_eq_getElem?, List.getElem?_eraseIdx]
      rw [if_pos hj]
    · intro j hj
      simp only [List.get?_eq_getElem?, List.getElem?_eraseIdx]
      rw [if_neg (by omega)]
    · rw [hstate]
      exact lookupDraft_eraseDraft_self s.working_copies i

theorem claim_C5_witness :
    ((handle_delete_service loadedState 5).1 = loadedState ∧
      ((handle_delete_service loadedState 5).2 = .outOfRangeMsg ∨
       (handle_delete_service loadedState 5).2 = .caughtIndexError)) ∧
    (handle_delete_service loadedState 0 =
        ({ loadedState with global_statuses := some ([sampleRecord].eraseIdx 0),
                            has_unsaved_changes := true,
                            working_copies := eraseDraft loadedState.working_copies 0 },
         .deleted) ∧
      ([sampleRecord].eraseIdx 0).length + 1 = [sampleRecord].length ∧
      (∀ j : Nat, j < (0 : Int).toNat →
        ([sampleRecord].eraseIdx 0).get? j = [sampleRecord].get? j) ∧
      (∀ j : Nat, (0 : Int).toNat ≤ j →
        ([sampleRecord].eraseIdx 0).get? j = [sampleRecord].get? (j + 1)) ∧
      lookupDraft (handle_delete_service loadedState 0).1.working_copies 0 = none) :=
  ⟨(claim_C5_delete_record loadedState [sampleRecord] 5 rfl).1 (by decide),
   (claim_C5_delete_record loadedState [sampleRecord] 0 rfl).2 (by decide) (by decide)⟩

/-- C6 counterexample: `update_index = -1` is not a valid position in the
draft's single-entry `updates`, yet `handle_delete_update` does not fail —
the guard `update_index < len(...)` has no lower bound, so `pop(-1)` removes
the last entry. -/
theorem claim_C6_counterexample :
    (handle_delete_update draftState 0 (-1)).2 = .removed ∧
    lookupDraft (handle_delete_update draftState 0 (-1)).1.working_copies 0 =
      some { sampleRecord with updates := [] } := by
  decide

/-- C6 (amended): `handle_delete_update` on a key with an open draft: an
index `≥ len(updates)` fails with the `Update not found` message and mutates
nothing; an index `< -len(updates)` raises `IndexError` into the caught-
exception path, also mutating nothing; a valid index `0 ≤ j < len` removes
exactly entry `j`, preserving the relative order of the rest; a negative
index `-len ≤ j < 0` is *not* rejected and removes the entry at `len + j`
(Python `pop` wrap-around). -/
theorem claim_C6_remove_entry_amended (s : BotState) (k j : Int)
    (w : ServiceRecord) (hw : lookupDraft s.working_copies k = some w) :
    ((w.updates.length : Int) ≤ j →
        handle_delete_update s k j = (s, .notFoundMsg)) ∧
    (j < -(w.updates.length : Int) →
        handle_delete_update s k j = (s, .caughtException)) ∧
    (∀ (h0 : 0 ≤ j) (hlt : j < (w.updates.length : Int)),
        (handle_delete_update s k j).2 = .removed ∧
        lookupDraft (handle_delete_update s k j).1.working_copies k =
          some { w with updates := w.updates.eraseIdx j.toNat } ∧
        (w.updates.eraseIdx j.toNat).length + 1 = w.updates.length ∧
        (∀ m : Nat, m < j.toNat →
          (w.updates.eraseIdx j.toNat).get? m = w.updates.get? m) ∧
        (∀ m : Nat, j.toNat ≤ m →
          (w.updates.eraseIdx j.toNat).get? m = w.updates.get? (m + 1))) ∧
    (-(w.updates.length : Int) ≤ j → j < 0 →
        (handle_delete_update s k j).2 = .removed ∧
        lookupDraft (handle_delete_update s k j).1.working_copies k =
          some { w with updates :=
            w.updates.eraseIdx ((w.updates.length : Int) + j).toNat }) := by
  refine ⟨?_, ?_, ?_, ?_⟩
  · intro hge
    have hcond : ¬ (j < (w.updates.length : Int)) := by omega
    simp [handle_delete_update, hw, hcond]
  · intro hlow
    have hcond : j < (w.updates.length : Int) := by omega
    have hsub : pySubscriptOk w.updates.length j = false := by
      simp only [pySubscriptOk, decide_eq_false_iff_not]
      omega
    simp [handle_delete_update, hw, hcond, hsub]
  · intro h0 hlt
    have hsub : pySubscriptOk w.updates.length j = true := by
      simp only [pySubscriptOk, decide_eq_true_eq]
      omega
    have hidx : pyIndex w.updates.length j = j.toNat := by
      simp [pyIndex, h0]
    have hnat : j.toNat < w.updates.length := by omega
    have hstate :
        handle_delete_update s k j =
          ({ s with working_copies :=
                      setDraft s.working_copies k
                        { w with updates := w.updates.eraseIdx j.toNat } },
           .removed) := by
      simp [handle_delete_update, hw, hlt, hsub, hidx]
    refine ⟨by rw [hstate], ?_, ?_, ?_, ?_⟩
    · rw [hstate]
      exact lookupDraft_setDraft_self s.working_copies k _
    · rw [List.length_eraseIdx_of_lt hnat]
      omega
    · intro m hm
      simp only [List.get?_eq_getElem?, List.getElem?_eraseIdx]
      rw [if_pos hm]
    · intro m hm
      simp only [List.get?_eq_getElem?, List.getElem?_eraseIdx]
      rw [if_neg (by omega)]
  · intro hge hneg
    have hcond : j < (w.updates.length : Int) := by omega
    have hsub : pySubscriptOk w.updates.length j = true := by
      simp only [pySubscriptOk, decide_eq_true_eq]
      omega
    have hidx : pyIndex w.updates.length j = ((w.updates.length : Int) + j).toNat := by
      simp only [pyIndex]
      rw [if_neg (by omega)]
    have hstate :
        handle_delete_update s k j =
          ({ s with working_copies :=
                      setDraft s.working_copies k
                        { w with updates :=
                            w.updates.eraseIdx ((w.updates.length : Int) + j).toNat } },
           .removed) := by
      simp [handle_delete_update, hw, hcond, hsub, hidx]
    refine ⟨by rw [hstate], ?_⟩
    rw [hstate]
    exact lookupDraft_setDraft_self s.working_copies k _

theorem claim_C6_witness :
    (handle_delete_update draftState 0 3 = (draftState, .notFoundMsg)) ∧
    (handle_delete_update draftState 0 (-7) = (draftState, .caughtException)) ∧
    ((handle_delete_update draftState 0 0).2 = .removed ∧
      lookupDraft (handle_delete_update draftState 0 0).1.working_copies 0 =
        some { sampleRecord with updates := sampleRecord.updates.eraseIdx (0 : Int).toNat } ∧
      (sampleRecord.updates.eraseIdx (0 : Int).toNat).length + 1 =
        sampleRecord.updates.length) :=
  ⟨(claim_C6_remove_entry_amended draftState 0 3 sampleRecord rfl).1 (by decide),
   (claim_C6_remove_entry_amended draftState 0 (-7) sampleRecord rfl).2.1 (by decide),
   ((claim_C6_remove_entry_amended draftState 0 0 sampleRecord rfl).2.2.1
       (by decide) (by decide)).1,
   ((claim_C6_remove_entry_amended draftState 0 0 sampleRecord rfl).2.2.1
       (by decide) (by decide)).2.1,
   ((claim_C6_remove_entry_amended draftState 0 0 sampleRecord rfl).2.2.1
       (by decide) (by decide)).2.2.1⟩

/-! ## Lemmas: error-dict key accounting for the validation pipeline -/

theorem hasKey_dictAssign_iff (m : List (FieldKey × String)) (k k' : FieldKey)
    (v : String) :
    hasKey (dictAssign m k v) k' = true ↔ (hasKey m k' = true ∨ k' = k) := by
  unfold hasKey dictAssign
  by_cases hm : m.any (fun p => p.1 = k)
  · rw [if_pos hm]
    simp only [List.any_map, List.any_eq_true, Function.comp, decide_eq_true_eq] at *
    constructor
    · rintro ⟨p, hp, hcond⟩
      by_cases hpk : p.1 = k
      · rw [if_pos hpk] at hcond
        exact Or.inr hcond.symm
      · rw [if_neg hpk] at hcond
        exact Or.inl ⟨p, hp, hcond⟩
    · rintro (⟨p, hp, hcond⟩ | hkk)
      · by_cases hpk : p.1 = k
        · obtain ⟨q, hq, hqk⟩ := hm
          refine ⟨q, hq, ?_⟩
          rw [if_pos hqk]
          rw [hpk] at hcond
          exact hcond
        · exact ⟨p, hp, by rw [if_neg hpk]; exact hcond⟩
      · obtain ⟨q, hq, hqk⟩ := hm
        refine ⟨q, hq, ?_⟩
        rw [if_pos hqk]
        exact hkk.symm
  · rw [if_neg hm]
    simp only [List.any_append, List.any_cons, List.any_nil, Bool.or_eq_true,
      List.any_eq_true, decide_eq_true_eq, Bool.or_false]
    constructor
    · rintro (h | h)
      · exact Or.inl h
      · exact Or.inr (by simpa using h.symm)
    · rintro (h | h)
      · exact Or.inl h
      · exact Or.inr (by simpa using h.symm)

theorem hasKey_dictAssign_mono (m : List (FieldKey × String)) (k k' : FieldKey)
    (v : String) (h : hasKey m k' = true) : hasKey (dictAssign m k v) k' = true :=
  (hasKey_dictAssign_iff m k k' v).mpr (Or.inl h)

theorem hasKey_dictAssign_self (m : List (FieldKey × String)) (k : FieldKey)
    (v : String) : hasKey (dictAssign m k v) k = true :=
  (hasKey_dictAssign_iff m k k v).mpr (Or.inr rfl)

/-- Keys already in the `errors` dict survive the update-processing loop. -/
theorem processUpdates_hasKey_mono (us : List UpdateInput) (idx : Nat)
    (errs : List (FieldKey × String)) (ups : List UpdateEntry) (k : FieldKey)
    (h : hasKey errs k = true) :
    hasKey (processUpdates idx us errs ups).1 k = true := by
  induction us generalizing idx errs ups with
  | nil => simpa [processUpdates] using h
  | cons u rest ih =>
      cases hu : u.url with
      | none =>
          simp only [processUpdates, hu]
          by_cases hd : validate_date_format u.date = true
          · rw [if_pos hd]
            exact ih (idx + 1) errs _ h
          · rw [if_neg hd]
            exact ih (idx + 1) _ _ (hasKey_dictAssign_mono _ _ _ _ h)
      | some uv =>
          simp only [processUpdates, hu]
          by_cases hd : validate_date_format u.date = true
          · rw [if_pos hd]
            by_cases he : uv = ""
            · rw [if_pos he]
              exact ih (idx + 1) errs _ h
            · rw [if_neg he]
              by_cases hv : validate_url uv = true
              · rw [if_pos hv]
                exact ih (idx + 1) errs _ h
              · rw [if_neg hv]
                exact ih (idx + 1) _ _ (hasKey_dictAssign_mono _ _ _ _ h)
          · rw [if_neg hd]
            exact ih (idx + 1) _ _ (hasKey_dictAssign_mono _ _ _ _ h)

/-- An update whose date fails validation leaves an error keyed by its own
date block. -/
theorem processUpdates_dateKey (us : List UpdateInput) (idx : Nat)
    (errs : List (FieldKey × String)) (ups : List UpdateEntry) (j : Nat)
    (u : UpdateInput) (hj : us.get? j = some u)
    (hd : validate_date_format u.date = false) :
    hasKey (processUpdates idx us errs ups).1 (.updateDate (idx + j)) = true := by
  induction us generalizing idx errs ups j with
  | nil => simp at hj
  | cons v rest ih =>
      cases j with
      | zero =>
          rw [List.get?_cons_zero, Option.some.injEq] at hj
          subst hj
          simp only [processUpdates, Nat.add_zero]
          rw [if_neg (by simp [hd])]
          exact processUpdates_hasKey_mono rest (idx + 1) _ ups _
            (hasKey_dictAssign_self errs _ _)
      | succ j' =>
          rw [List.get?_cons_succ] at hj
          have harith : idx + (j' + 1) = (idx + 1) + j' := by omega
          rw [harith]
          cases hvu : v.url with
          | none =>
              simp only [processUpdates, hvu]
              by_cases hvd : validate_date_format v.date = true
              · rw [if_pos hvd]
                exact ih (idx + 1) errs _ j' hj
              · rw [if_neg hvd]
                exact ih (idx + 1) _ _ j' hj
          | some uv =>
              simp only [processUpdates, hvu]
              by_cases hvd : validate_date_format v.date = true
              · rw [if_pos hvd]
                by_cases he : uv = ""
                · rw [if_pos he]
                  exact ih (idx + 1) errs _ j' hj
                · rw [if_neg he]
                  by_cases hv : validate_url uv = true
                  · rw [if_pos hv]
                    exact ih (idx + 1) errs _ j' hj
                  · rw [if_neg hv]
                    exact ih (idx + 1) _ _ j' hj
              · rw [if_neg hvd]
                exact ih (idx + 1) _ _ j' hj

/-- An update with a valid date but an invalid non-empty url leaves an error
keyed by its own url block. -/
theorem processUpdates_urlKey (us : List UpdateInput) (idx : Nat)
    (errs : List (FieldKey × String)) (ups : List UpdateEntry) (j : Nat)
    (u : UpdateInput) (uv : String) (hj : us.get? j = some u)
    (hd : validate_date_format u.date = true) (hu : u.url = some uv)
    (he : uv ≠ "") (hv : validate_url uv = false) :
    hasKey (processUpdates idx us errs ups).1 (.updateUrl (idx + j)) = true := by
  induction us generalizing idx errs ups j with
  | nil => simp at hj
  | cons v rest ih =>
      cases j with
      | zero =>
          rw [List.get?_cons_zero, Option.some.injEq] at hj
          subst hj
          simp only [processUpdates, hu, Nat.add_zero]
          rw [if_pos hd, if_neg he, if_neg (by simp [hv])]
          exact processUpdates_hasKey_mono rest (idx + 1) _ ups _
            (hasKey_dictAssign_self errs _ _)
      | succ j' =>
          rw [List.get?_cons_succ] at hj
          have harith : idx + (j' + 1) = (idx + 1) + j' := by omega
          rw [harith]
          cases hvu : v.url with
          | none =>
              simp only [processUpdates, hvu]
              by_cases hvd : validate_date_format v.date = true
              · rw [if_pos hvd]
                exact ih (idx + 1) errs _ j' hj
              · rw [if_neg hvd]
                exact ih (idx + 1) _ _ j' hj
          | some wv =>
              simp only [processUpdates, hvu]
              by_cases hvd : validate_date_format v.date = true
              · rw [if_pos hvd]
                by_cases hwe : wv = ""
                · rw [if_pos hwe]
                  exact ih (idx + 1) errs _ j' hj
                · rw [if_neg hwe]
                  by_cases hwv : validate_url wv = true
                  · rw [if_pos hwv]
                    exact ih (idx + 1) errs _ j' hj
                  · rw [if_neg hwv]
                    exact ih (idx + 1) _ _ j' hj
              · rw [if_neg hvd]
                exact ih (idx + 1) _ _ j' hj

/-- Keys present after the update-processing stage survive the three `Basic
validations`. -/
theorem buildSubmission_keeps (inp : SubmissionInput) (k : FieldKey)
    (h : hasKey (submissionProcessed inp).1 k = true) :
    hasKey (buildSubmission inp).1 k = true := by
  unfold buildSubmission
  by_cases h2 : (submissionProcessed inp).2.isEmpty <;>
    by_cases h3 : inp.serviceName = "" <;>
      by_cases h4 : inp.serviceSummary = "" <;>
        simp only [h2, h3, h4, if_true, if_false, ite_true, ite_false] <;>
          (repeat apply hasKey_dictAssign_mono) <;> exact h

/-- C3 counterexample: an update entry with empty `details` raises no
violation — neither submission handler ever checks `details` for emptiness —
and the record commits, so the violation map lacks the entry the claim
requires for that field. -/
theorem claim_C3_counterexample :
    (buildSubmission emptyDetailsInput).1 = [] ∧
    (buildSubmission emptyDetailsInput).2.updates =
      [{ date := "2024-05-20T10:00", details := "", url := none }] ∧
    (handle_edit_service_submission loadedState 0 emptyDetailsInput).2 =
      .saved (buildSubmission emptyDetailsInput).2 := by
  decide

/-- C3 (amended): validation collects every violation it checks for, keyed
by field: an invalid main date, an empty service name, an empty summary, a
record left with zero update entries (filed under the summary field's key),
an invalid date on any update entry, and an invalid non-empty url on any
update entry whose date is valid.  Empty `details` is not checked. -/
theorem claim_C3_validation_collects_all_amended (inp : SubmissionInput) :
    (validate_date_format inp.serviceDate = false →
        hasKey (buildSubmission inp).1 .serviceDate = true) ∧
    (inp.serviceName = "" → hasKey (buildSubmission inp).1 .serviceName = true) ∧
    (inp.serviceSummary = "" → hasKey (buildSubmission inp).1 .serviceSummary = true) ∧
    ((buildSubmission inp).2.updates = [] →
        hasKey (buildSubmission inp).1 .serviceSummary = true) ∧
    (∀ j u, inp.updates.get? j = some u → validate_date_format u.date = false →
        hasKey (buildSubmission inp).1 (.updateDate j) = true) ∧
    (∀ j u uv, inp.updates.get? j = some u → validate_date_format u.date = true →
        u.url = some uv → uv ≠ "" → validate_url uv = false →
        hasKey (buildSubmission inp).1 (.updateUrl j) = true) := by
  refine ⟨?_, ?_, ?_, ?_, ?_, ?_⟩
  · intro hd
    apply buildSubmission_keeps
    unfold submissionProcessed
    apply processUpdates_hasKey_mono
    unfold mainDateErrs
    rw [if_neg (by simp [hd])]
    exact hasKey_dictAssign_self _ _ _
  · intro h3
    simp only [buildSubmission]
    by_cases h4 : inp.serviceSummary = ""
    · rw [if_pos h4]
      apply hasKey_dictAssign_mono
      rw [if_pos h3]
      exact hasKey_dictAssign_self _ _ _
    · rw [if_neg h4, if_pos h3]
      exact hasKey_dictAssign_self _ _ _
  · intro h4
    simp only [buildSubmission]
    rw [if_pos h4]
    exact hasKey_dictAssign_self _ _ _
  · intro hz
    have hz' : (submissionProcessed inp).2.isEmpty = true := by
      simp only [buildSubmission] at hz
      rw [hz]
      rfl
    simp only [buildSubmission]
    by_cases h4 : inp.serviceSummary = ""
    · rw [if_pos h4]
      exact hasKey_dictAssign_self _ _ _
    · rw [if_neg h4]
      by_cases h3 : inp.serviceName = ""
      · rw [if_pos h3]
        apply hasKey_dictAssign_mono
        rw [if_pos hz']
        exact hasKey_dictAssign_self _ _ _
      · rw [if_neg h3, if_pos hz']
        exact hasKey_dictAssign_self _ _ _
  · intro j u hj hd
    apply buildSubmission_keeps
    unfold submissionProcessed
    have hkey := processUpdates_dateKey inp.updates 0 (mainDateErrs inp) [] j u hj hd
    simpa using hkey
  · intro j u uv hj hd hu he hv
    apply buildSubmission_keeps
    unfold submissionProcessed
    have hkey := processUpdates_urlKey inp.updates 0 (mainDateErrs inp) [] j u uv hj hd hu he hv
    simpa using hkey

theorem claim_C3_witness :
    hasKey (buildSubmission allViolationsInput).1 .serviceDate = true ∧
    hasKey (buildSubmission allViolationsInput).1 .serviceName = true ∧
    hasKey (buildSubmission allViolationsInput).1 .serviceSummary = true ∧
    hasKey (buildSubmission allViolationsInput).1 (.updateDate 0) = true ∧
    hasKey (buildSubmission allViolationsInput).1 (.updateUrl 1) = true :=
  ⟨(claim_C3_validation_collects_all_amended allViolationsInput).1 (by decide),
   (claim_C3_validation_collects_all_amended allViolationsInput).2.1 rfl,
   (claim_C3_validation_collects_all_amended allViolationsInput).2.2.1 rfl,
   (claim_C3_validation_collects_all_amended allViolationsInput).2.2.2.2.1 0
     { date := "2024-13-40T99:99", details := "", url := none } rfl (by decide),
   (claim_C3_validation_collects_all_amended allViolationsInput).2.2.2.2.2 1
     { date := "2024-05-20T10:00", details := "y", url := some "notaurl" } "notaurl"
     rfl (by decide) rfl (by decide) (by decide)⟩

end CedaStatusBot
